import Mathlib

/-!
Verification of the v2v-conversion-host wrapper against its specification.

The Python sources under `wrapper/` are shallowly embedded: pure fragments
become Lean functions, the mutable parser/state-store objects become explicit
state passing, and Python list indexing (including negative indices and the
clamping behaviour of `list.insert`) is modelled explicitly.  Machine floats
that only ever hold decimal progress percentages are modelled by rationals.
-/

set_option autoImplicit false

namespace V2V

/-! ## Python list primitives

`wrapper/log_parser.py` manipulates `state["disks"]` with Python list
operations.  Python indexing accepts negative indices (counting from the
back) and `list.insert` clamps out-of-range positions, so we model these
operations faithfully on `List`. -/

/-- Normalise a Python index for element access on a list of length `n`:
`some k` with `0 ≤ k < n` on success, `none` when Python raises IndexError. -/
def pyIndex (n : Nat) (i : Int) : Option Nat :=
  if 0 ≤ i then
    if i < (n : Int) then some i.toNat else none
  else
    if -i ≤ (n : Int) then some (n - (-i).toNat) else none

/-- Python `l[i]` (read). -/
def pyGet {α : Type} (l : List α) (i : Int) : Option α :=
  (pyIndex l.length i).bind l.get?

/-- Position at which Python `l.insert(i, x)` places `x`: out-of-range
indices are clamped to the ends. -/
def pyInsertPos (n : Nat) (i : Int) : Nat :=
  if 0 ≤ i then min i.toNat n
  else if -i ≤ (n : Int) then n - (-i).toNat else 0

/-- Python `l.insert(i, x)`. -/
def pyInsert {α : Type} (l : List α) (i : Int) (x : α) : List α :=
  l.take (pyInsertPos l.length i) ++ x :: l.drop (pyInsertPos l.length i)

/-- Python `l.pop(i)`: the removed element and the remaining list
(`none` when Python raises IndexError). -/
def pyPop {α : Type} (l : List α) (i : Int) : Option (α × List α) :=
  match pyIndex l.length i with
  | none => none
  | some k =>
    match l.get? k with
    | none => none
    | some a => some (a, l.take k ++ l.drop (k + 1))

/-- Python `l[i] = x` (write; `none` when Python raises IndexError). -/
def pySet {α : Type} (l : List α) (i : Int) (x : α) : Option (List α) :=
  match pyIndex l.length i with
  | none => none
  | some k => if k < l.length then some (l.set k x) else none

theorem pyIndex_nonneg_lt {n : Nat} {i : Int} (h0 : 0 ≤ i) (h1 : i < (n : Int)) :
    pyIndex n i = some i.toNat := by
  simp [pyIndex, h0, h1]

theorem pyInsertPos_nonneg_le {n : Nat} {i : Int} (h0 : 0 ≤ i) (h1 : i ≤ (n : Int)) :
    pyInsertPos n i = i.toNat := by
  have : i.toNat ≤ n := by omega
  simp [pyInsertPos, h0, Nat.min_eq_left this]

/-! ## Log parser (`wrapper/log_parser.py`)

The parser keeps two pieces of ambient state, `_current_disk` and
`_current_path` (lines 55-56), and updates the shared state mapping.  Disk
entries are the dictionaries `{"path": ..., "progress": ...}`. -/

/-- One entry of `state["disks"]`. -/
structure Disk where
  path : String
  progress : ℚ
  deriving DecidableEq, Repr

/-- Ambient parser state (`OutputParser._current_disk` / `_current_path`).
`currentDisk` is a Python integer, hence `Int`: the converter line
`Copying disk N/M` stores `N - 1`, which Python does not bound-check. -/
structure Ambient where
  currentDisk : Option Int
  currentPath : Option String
  deriving DecidableEq, Repr

/-- The slice of the shared state mapping touched by the parser. -/
structure VmState where
  disks : List Disk
  diskCount : Option Int
  diskIds : List (String × String)
  vmId : Option String
  deriving DecidableEq, Repr

/-- Errors the embedded Python fragments can raise. -/
inductive PyErr where
  | indexError
  | typeError
  deriving DecidableEq, Repr

/-- `OutputParser._locate_disk` (log_parser.py lines 196-223): scan
`disks[current_disk:]` for `current_path`; leave it if already at
`current_disk`, move it there if found later, insert a fresh entry with
progress 0 otherwise.  The scan is Python `for i in
xrange(current_disk, len(disks))` reading `disks[i]`: a read outside the
Python-indexable range (i < -len) raises IndexError and aborts the
method before any mutation. -/
def scanFrom (disks : List Disk) (p : String) :
    List Int → Except PyErr (Option Int)
  | [] => .ok none
  | i :: rest =>
    match pyGet disks i with
    | none => .error .indexError
    | some d => if d.path = p then .ok (some i) else scanFrom disks p rest

def findFrom (disks : List Disk) (p : String) (c : Int) :
    Except PyErr (Option Int) :=
  scanFrom disks p
    ((List.range ((disks.length : Int) - c).toNat).map (fun (k : Nat) => c + (k : Int)))

def locate_disk (c : Option Int) (p : String) (disks : List Disk) :
    Except PyErr (List Disk) :=
  match c with
  | none => .ok disks        -- "False alarm, not copying yet"
  | some c =>
    match findFrom disks p c with
    | .error e => .error e
    | .ok (some i) =>
      if i = c then .ok disks  -- "Found path at correct index"
      else
        match pyPop disks i with
        | some (d, rest) => .ok (pyInsert rest c d)
        | none => .error .indexError  -- unreachable: the scan read this index
    | .ok none => .ok (pyInsert disks c { path := p, progress := 0 })

/-- Handler for `DISK_PROGRESS_RE` lines (log_parser.py lines 143-157):
when both `current_path` and `current_disk` are known, assign
`state["disks"][current_disk]["progress"] = v`; otherwise skip.  An
out-of-range `current_disk` raises IndexError (only ValueError is caught). -/
def progress_line (amb : Ambient) (disks : List Disk) (v : ℚ) :
    Except PyErr (List Disk) :=
  match amb.currentPath, amb.currentDisk with
  | some _, some c =>
    match pyGet disks c with
    | some d =>
      match pySet disks c { d with progress := v } with
      | some disks1 => .ok disks1
      | none => .error .indexError
    | none => .error .indexError
  | _, _ => .ok disks        -- "Skipping progress update for unknown disk"

/-- Handler for `RHV_DISK_UUID` lines (log_parser.py lines 159-164):
`path = state["disks"][current_disk]["path"]` followed by
`state["internal"]["disk_ids"][path] = disk_id`.  A `None` index raises
TypeError, an out-of-range one IndexError; neither is caught. -/
def disk_uuid_line (amb : Ambient) (st : VmState) (uuid : String) :
    Except PyErr VmState :=
  match amb.currentDisk with
  | none => .error .typeError
  | some c =>
    match pyGet st.disks c with
    | none => .error .indexError
    | some d => .ok { st with diskIds := (d.path, uuid) :: st.diskIds.filter (fun kv => kv.1 ≠ d.path) }

/-- Handler for `COPY_DISK_RE` lines (log_parser.py lines 86-104):
`current_disk := n - 1`, `current_path := None`, `disk_count := m`. -/
def copy_disk_line (amb : Ambient) (st : VmState) (n m : Int) :
    Ambient × VmState :=
  ({ amb with currentDisk := some (n - 1), currentPath := none },
   { st with diskCount := some m })

/-! ## State store (`wrapper/singleton.py`)

`State.__StateObject.write` (lines 57-65) copies the state dictionary,
deletes the `internal` key from the copy, serialises the copy as JSON into a
fresh temp file next to the state file, and renames the temp file over the
state file.  The state dictionary is a JSON object; file contents are
modelled as the (parsed) JSON documents they hold. -/

/-- JSON values, sufficient for the state snapshot. -/
inductive JVal where
  | null
  | bool (b : Bool)
  | num (q : ℚ)
  | str (s : String)
  | arr (elems : List JVal)
  | obj (fields : List (String × JVal))

/-- A JSON object: ordered fields with unique keys (Python dict). -/
abbrev JObj := List (String × JVal)

/-- First-match lookup in a JSON object. -/
def jlookup (o : JObj) (k : String) : Option JVal :=
  match o with
  | [] => none
  | (k1, v) :: rest => if k1 = k then some v else jlookup rest k

/-- Python `del state[k]` on the copied dictionary. -/
def jerase (o : JObj) (k : String) : JObj :=
  o.filter (fun kv => kv.1 ≠ k)

/-- File system: paths to the JSON documents stored in them. -/
abbrev FS := List (String × JObj)

def fsGet (fs : FS) (p : String) : Option JObj :=
  match fs with
  | [] => none
  | (p1, d) :: rest => if p1 = p then some d else fsGet rest p

def fsSet (fs : FS) (p : String) (d : JObj) : FS :=
  (p, d) :: fs.filter (fun e => e.1 ≠ p)

/-- `os.rename(src, dst)`: the document stored at `src` moves to `dst`. -/
def fsRename (fs : FS) (src dst : String) : FS :=
  match fsGet fs src with
  | none => fs
  | some d => fsSet (fs.filter (fun e => e.1 ≠ src)) dst d

/-- `State.__StateObject.write` (singleton.py lines 57-65): the in-memory
state is left as is; on disk, the snapshot without `internal` is written to
`tmp` and renamed over `stateFile`. -/
def State.write (st : JObj) (fs : FS) (stateFile tmp : String) : JObj × FS :=
  let snapshot := jerase st "internal"
  let fs1 := fsSet fs tmp snapshot
  let fs2 := fsRename fs1 tmp stateFile
  (st, fs2)

/-! ## In-pod back-end progress annotation (`wrapper/hosts.py`, CNVHost)

`CNVHost.update_progress` (hosts.py lines 162-198) computes the average of
the disk progress values and builds a JSON patch for the pod document.  We
record which patch operations are appended and whether the HTTP PATCH is
issued at all (`K8SCommunicator.patch` is called only inside the second
`if`, i.e. only when `annotations` was missing). -/

inductive PatchOp where
  | addMetadata
  | addAnnotations
  | setProgress (value : ℚ)
  deriving DecidableEq, Repr

/-- The pod document as far as `update_progress` inspects it:
whether it has a `metadata` key, and whether `metadata` has `annotations`. -/
structure PodDoc where
  hasMetadata : Bool
  hasAnnotations : Bool
  deriving DecidableEq, Repr

/-- Arithmetic mean of `disks[*].progress`, 0 when the list is empty
(hosts.py lines 166-171). -/
def progressMean (ps : List ℚ) : ℚ :=
  if ps.length > 0 then ps.sum / ps.length else 0

/-- `CNVHost.update_progress` (hosts.py lines 162-198).  Returns the body
of the PATCH request, or `none` when no request is issued.  Transcribed
from the source: the `addMetadata` op is appended when the pod lacks
`metadata` (and the local copy gains an empty `metadata`); the
`addAnnotations` op, the progress op and the `self._k8s.patch(...)` call
are all under `if "annotations" not in pod["metadata"]`. -/
def update_progress (ps : List ℚ) (pod : PodDoc) : Option (List PatchOp) :=
  let progress := progressMean ps
  let patch0 : List PatchOp := []
  let patch1 := if !pod.hasMetadata then patch0 ++ [.addMetadata] else patch0
  -- after the first `if`, the local pod document has a `metadata` key;
  -- it is the freshly created empty object when it was missing
  let annPresent := pod.hasMetadata && pod.hasAnnotations
  if !annPresent then
    some (patch1 ++ [.addAnnotations, .setProgress progress])
  else
    none

/-! ## OpenStack disk naming (`wrapper/hosts.py`, OSPHost) -/

/-- `chr(ord("a") + i)` for `0 ≤ i < 26`. -/
def enumid (i : Int) : Char := Char.ofNat (97 + i.toNat)

/-- `OSPHost._get_disk_name` (hosts.py lines 560-569). -/
def get_disk_name (index : Int) : Except String String :=
  if index < 1 then .error "Index less then 1"
  else if index > 702 then .error "Index too large"
  else
    let i := index - 1
    let one := i / 26
    let two := i % 26
    .ok ("vd" ++ (if one = 0 then "" else String.singleton (enumid (one - 1)))
      ++ String.singleton (enumid two))

/-! ## Throttling controller (`wrapper/virt_v2v_wrapper.py`, lines 153-235)

`throttling_update` reads the JSON drop-file (removing it on a successful
read), checks that the runner is the systemd variant, and walks the
key/value pairs.  The runner calls `systemd_set_property("CPUQuota", v)`
and `set_network_limit(v)` are modelled by boolean oracles recording their
return values; the values passed to them are collected in call lists. -/

/-- Values occurring in the throttling drop-file (the wrapper compares
against `None` and strings; other JSON types would raise in `re.match`
and are outside the modelled inputs). -/
inductive TVal where
  | null
  | str (s : String)
  deriving DecidableEq, Repr

/-- `state["throttling"]` (singleton.py lines 26-29). -/
structure Throttling where
  cpu : Option String
  network : Option String
  deriving DecidableEq, Repr

/-- Character class `[+0-9]`. -/
def isCpuClass (c : Char) : Bool := c = '+' || c.isDigit

/-- `re.match("([+0-9]+)%?$", v)`: the captured group, when the whole
string — Python dollar also matches just before one trailing newline —
is a nonempty `[+0-9]` run optionally followed by a percent sign. -/
def parse_cpu_val (v : String) : Option String :=
  let cs0 := v.data
  let cs := if cs0.getLast? = some (Char.ofNat 10) then cs0.dropLast else cs0
  let core := if cs.getLast? = some '%' then cs.dropLast else cs
  if core.isEmpty then none
  else if core.all isCpuClass then some (String.mk core) else none

/-- `re.match("([+0-9]+)$", v)`, with the same trailing-newline
behaviour of the dollar anchor. -/
def parse_net_val (v : String) : Option String :=
  let cs0 := v.data
  let cs := if cs0.getLast? = some (Char.ofNat 10) then cs0.dropLast else cs0
  if cs.isEmpty then none
  else if cs.all isCpuClass then some (String.mk cs) else none

/-- The `(val, set_val)` pair the cpu branch computes
(virt_v2v_wrapper.py lines 186-199); `none` means the parse error branch. -/
def cpuValSet (v : TVal) : Option (String × String) :=
  match v with
  | .null => some ("unlimited", "")
  | .str s =>
    if s = "unlimited" then some ("unlimited", "")
    else match parse_cpu_val s with
      | some g => some (g ++ "%", g ++ "%")
      | none => none

/-- The `(val, set_val)` pair the network branch computes (lines 208-221). -/
def netValSet (v : TVal) : Option (String × String) :=
  match v with
  | .null => some ("unlimited", "unlimited")
  | .str s =>
    if s = "unlimited" then some ("unlimited", "unlimited")
    else match parse_net_val s with
      | some g => some (g, g)
      | none => none

/-- Observable outcome of processing drop-file entries: values passed to
`systemd_set_property("CPUQuota", _)`, values passed to
`set_network_limit(_)`, `error(...)` messages, and the `processed`
dictionary (as the ordered list of its insertions). -/
structure ThrottleOut where
  cpuCalls : List String
  netCalls : List String
  errors : List String
  processed : List (String × String)
  deriving DecidableEq, Repr

def ThrottleOut.empty : ThrottleOut := ⟨[], [], [], []⟩

def ThrottleOut.append (a b : ThrottleOut) : ThrottleOut :=
  ⟨a.cpuCalls ++ b.cpuCalls, a.netCalls ++ b.netCalls,
   a.errors ++ b.errors, a.processed ++ b.processed⟩

/-- One iteration of the `for k, v in six.iteritems(throttling)` loop
(virt_v2v_wrapper.py lines 184-233).  `state["throttling"]` is only read
during the loop (`processed` is merged afterwards), so the current limits
`thr` are fixed.  The boolean oracles give the runner call results. -/
def handle_entry (thr : Throttling) (cpuOk netOk : String → Bool)
    (k : String) (v : TVal) : ThrottleOut :=
  if k = "cpu" then
    match cpuValSet v with
    | none => ⟨[], [], ["Failed to parse value for CPU limit"], []⟩
    | some (val, set_val) =>
      if thr.cpu ≠ some val then
        -- `val != state["throttling"]["cpu"]` holds: the property call is made
        if cpuOk set_val then ⟨[set_val], [], [], [("cpu", val)]⟩
        else ⟨[set_val], [], ["Failed to set CPU limit"], []⟩
      else ⟨[], [], ["Failed to set CPU limit"], []⟩
  else if k = "network" then
    match netValSet v with
    | none => ⟨[], [], ["Failed to parse value for network limit"], []⟩
    | some (val, set_val) =>
      if thr.network ≠ some val then
        -- the short-circuit holds: `set_network_limit` is called
        if netOk set_val then ⟨[], [set_val], [], [("network", val)]⟩
        else ⟨[], [set_val], ["Failed to set network limit"], []⟩
      else ⟨[], [], ["Failed to set network limit"], []⟩
  else ⟨[], [], [], []⟩     -- "Ignoring unknown throttling request"

/-- The whole `for` loop over the drop-file entries. -/
def throttle_entries (thr : Throttling) (cpuOk netOk : String → Bool)
    (entries : List (String × TVal)) : ThrottleOut :=
  match entries with
  | [] => ThrottleOut.empty
  | (k, v) :: rest =>
    (handle_entry thr cpuOk netOk k v).append (throttle_entries thr cpuOk netOk rest)

/-- `state["throttling"].update(processed)` (line 234). -/
def thrUpdate (thr : Throttling) (processed : List (String × String)) : Throttling :=
  processed.foldl
    (fun t kv =>
      if kv.1 = "cpu" then { t with cpu := some kv.2 }
      else if kv.1 = "network" then { t with network := some kv.2 }
      else t)
    thr

/-- `throttling_update` applied to already-read drop-file content on a
systemd runner (virt_v2v_wrapper.py lines 183-235). -/
def throttling_update (thr : Throttling) (cpuOk netOk : String → Bool)
    (entries : List (String × TVal)) : ThrottleOut × Throttling :=
  let out := throttle_entries thr cpuOk netOk entries
  (out, thrUpdate thr out.processed)

/-- The drop-file as found on disk. -/
inductive DropFile where
  | absent                                 -- open() raises ENOENT
  | invalid                                -- json.load raises ValueError
  | content (entries : List (String × TVal))
  deriving Repr

/-- Result of one full `throttling_update(runner)` tick. -/
structure ThrottleIO where
  fileRemoved : Bool
  readError : Bool
  applied : Option (ThrottleOut × Throttling)
  deriving Repr

/-- `throttling_update` including the read-then-remove step
(virt_v2v_wrapper.py lines 159-181): `os.remove` runs right after a
successful `json.load`, before the systemd-runner check and before any
entry is examined. -/
def throttling_update_io (thr : Throttling) (cpuOk netOk : String → Bool)
    (isSystemd : Bool) (df : DropFile) : ThrottleIO :=
  match df with
  | .absent => ⟨false, false, none⟩
  | .invalid => ⟨false, true, none⟩
  | .content entries =>
    if isSystemd then
      ⟨true, false, some (throttling_update thr cpuOk netOk entries)⟩
    else
      ⟨true, false, none⟩    -- warning only, nothing applied

/-! ## Logging sanitizer (`wrapper/common.py`, lines 85-102)

`log_command_safe` deep-copies its inputs, masks `password`-named
name=value arguments starting from index 1, and masks environment values
whose key contains `password` case-insensitively. -/

def startsWithList : List Char → List Char → Bool
  | _, [] => true
  | [], _ :: _ => false
  | c :: cs, p :: ps => c = p && startsWithList cs ps

def hasSubstr (s pat : List Char) : Bool :=
  match s with
  | [] => startsWithList [] pat
  | _ :: cs => startsWithList s pat || hasSubstr cs pat

/-- Case-insensitive `re.search("password", s)`. -/
def containsPassword (s : String) : Bool :=
  hasSubstr (s.data.map Char.toLower) "password".data

/-- Split a string at its first `=` character. -/
def splitEq : List Char → Option (List Char × List Char)
  | [] => none
  | c :: rest =>
    if c = '=' then some ([], rest)
    else (splitEq rest).map (fun ab => (c :: ab.1, ab.2))

/-- Masking of one argument by `([^=]*password[^=]*)=(.*)` (common.py
lines 89-93): the argument is rewritten to `name=*****` exactly when it
contains an `=` and the part before the first `=` contains `password`
case-insensitively. -/
def mask_arg (s : String) : String :=
  match splitEq s.data with
  | some (name, _) =>
    if hasSubstr (name.map Char.toLower) "password".data
    then String.mk name ++ "=*****"
    else s
  | none => s

/-- `log_command_safe` (common.py lines 85-102): the sanitized argument
list and environment as they are logged.  The `for i in xrange(1,
len(args))` loop leaves `args[0]` untouched. -/
def log_command_safe (args : List String) (env : List (String × String)) :
    List String × List (String × String) :=
  (match args with
   | [] => []
   | a0 :: rest => a0 :: rest.map mask_arg,
   env.map (fun kv => if containsPassword kv.1 then (kv.1, "*****") else kv))

/-! ## Run controller exit behaviour (`wrapper/virt_v2v_wrapper.py`, `main`)

`main` (lines 367-620) validates the request with `hard_error` (common.py
lines 71-82, `sys.exit(1)`), then writes secrets, runs the conversion via
`wrapper()` (lines 238-285), finalises, persists `finished = True` (line
588 in the failure path, line 601 otherwise) and exits 2 when the state is
failed (lines 619-620), 0 otherwise.  The parts of the request inspected
by the generic validation (lines 436-466) are modelled by key-presence
flags; back-end specific `validate_data` failures are abstracted by an
optional error. -/

/-- Key presence in one element of `network_mappings`. -/
structure NetworkMapping where
  hasSource : Bool
  hasDestination : Bool
  deriving DecidableEq, Repr

/-- The `network_mappings` field: absent, present but not a list, or a list. -/
inductive NMField where
  | notList
  | list (ms : List NetworkMapping)
  deriving DecidableEq, Repr

/-- The request fields inspected by the generic validation in `main`. -/
structure Request where
  hasVmName : Bool
  transportMethod : Option String
  hasVmwareFingerprint : Bool
  hasVmwareUri : Bool
  hasVmwarePassword : Bool
  networkMappings : Option NMField
  deriving DecidableEq, Repr

/-- The `hard_error` checks of virt_v2v_wrapper.py lines 436-466, in
source order; `some msg` is the first failure. -/
def generic_validate (d : Request) : Option String :=
  if !d.hasVmName then some "Missing vm_name"
  else
    match d.transportMethod with
    | none => some "No transport method specified"
    | some tm =>
      if tm ≠ "ssh" && tm ≠ "vddk" then some "Unknown transport method"
      else
        let vddkErr :=
          if tm = "vddk" then
            if !d.hasVmwareFingerprint then some "Missing argument: vmware_fingerprint"
            else if !d.hasVmwareUri then some "Missing argument: vmware_uri"
            else if !d.hasVmwarePassword then some "Missing argument: vmware_password"
            else none
          else none
        match vddkErr with
        | some e => some e
        | none =>
          match d.networkMappings with
          | some .notList => some "network_mappings must be an array"
          | some (.list ms) =>
            if ms.all (fun m => m.hasSource && m.hasDestination) then none
            else some "Both source and destination must be provided in network mapping"
          | none => none

/-- Outcome of `host.handle_finish(data, state)` (line 572): a returned
boolean, or an exception — caught at line 573, `failed := True`
persisted, then re-raised at line 580. -/
inductive FinishResult where
  | ok (success : Bool)
  | raised
  deriving DecidableEq, Repr

/-- Outcome of `host.handle_cleanup(data, state)` (line 586): it has no
`except` around it, only the `finally` that persists `finished`. -/
inductive CleanupResult where
  | ok
  | raised
  deriving DecidableEq, Repr

/-- Abstract outcome of the conversion phase: whether `runner.run()`
raised, whether the monitor loop raised, the converter exit status, the
`handle_finish` outcome, and the `handle_cleanup` outcome (relevant only
when the cleanup phase runs). -/
structure RunOutcome where
  startFailed : Bool
  monitorExn : Bool
  returnCode : Int
  finish : FinishResult
  cleanup : CleanupResult
  deriving DecidableEq, Repr

/-- `state["failed"]` after `wrapper()` returns (lines 249-285):
set on a start failure, on a monitor-loop exception, and on a non-zero
converter return code. -/
def wrapper_failed (ro : RunOutcome) : Bool :=
  ro.startFailed || ro.monitorExn || decide (ro.returnCode ≠ 0)

def finish_raised (f : FinishResult) : Bool :=
  match f with
  | .raised => true
  | .ok _ => false

/-- The contribution of line 572 / the except handler at 573-579 to
`state["failed"]`: a false return or an exception both set it. -/
def finish_failed (f : FinishResult) : Bool :=
  match f with
  | .ok b => !b
  | .raised => true

def cleanup_raised (c : CleanupResult) : Bool :=
  match c with
  | .raised => true
  | .ok => false

/-- `state["failed"]` after the inner try block (lines 571-580):
`handle_finish` is consulted only when the wrapper did not already
fail. -/
def final_failed (ro : RunOutcome) : Bool :=
  wrapper_failed ro || finish_failed ro.finish

/-- Whether an exception escapes `main`: a raising `handle_finish` is
re-raised at lines 580 and 616, and a raising `handle_cleanup`
propagates out of the `finally` at lines 581-589 and is re-raised at
line 616; the interpreter then terminates with a traceback, exit status
1.  `handle_finish` runs only when the wrapper did not fail, the cleanup
phase only when the state is failed. -/
def exn_escaped (ro : RunOutcome) : Bool :=
  (!wrapper_failed ro && finish_raised ro.finish)
    || (final_failed ro && cleanup_raised ro.cleanup)

/-- Observable outcome of one `main` invocation without CLI flags. -/
structure MainResult where
  exitCode : Nat
  secretsWritten : Bool
  finishedPersisted : Bool
  failed : Bool
  escapedExn : Bool
  deriving DecidableEq, Repr

/-- `main` without CLI flags (lines 383-620).  Generic validation and
the back-end `validate_data` / `check_install_drivers` fail through
`hard_error` (exit 1) before the password files are written; the
LUKS-vault ownership checks (lines 506-514) also `hard_error` to exit 1
but only after `write_password` ran (lines 485-499), and `sys.exit`
bypasses the cleanup code, so `finished` is not persisted there either.
Otherwise the conversion runs: `state["failed"]` is set from the run
outcome and from `handle_finish`; the cleanup `finally` (lines 581-589)
persists `finished = true` even when `handle_cleanup` raises; an
exception escaping to the top level makes the interpreter exit 1, else
the exit is 2 iff the state is failed (lines 619-620). -/
def main_run (d : Request) (backendError luksError : Option String)
    (ro : RunOutcome) : MainResult :=
  match generic_validate d with
  | some _ => ⟨1, false, false, false, false⟩
  | none =>
    match backendError with
    | some _ => ⟨1, false, false, false, false⟩
    | none =>
      match luksError with
      | some _ => ⟨1, true, false, false, false⟩
      | none =>
        let failed := final_failed ro
        let escaped := exn_escaped ro
        ⟨if escaped then 1 else if failed then 2 else 0, true, true,
          failed, escaped⟩

/-! ## ISO ranking (`wrapper/hosts.py`, `VDSMHost._filter_iso_names`)

The eight `TOOLS_PATTERNS` (hosts.py lines 605-614) are byte regexes
matched case-insensitively and anchored at the start only (`re.match`).
Each is of one of two shapes: a bare literal, or a literal followed by a
greedy one-or-more character-class capture group and a suffix.  The
greedy group together with backtracking selects the longest prefix of
class characters after which the suffix still matches. -/

/-- Case-insensitive literal prefix strip: `lit` must be lowercase. -/
def stripCi : List Char → List Char → Option (List Char)
  | [], s => some s
  | _ :: _, [] => none
  | p :: ps, c :: cs => if c.toLower = p then stripCi ps cs else none

/-- Greedy capture with backtracking: the longest `k ≤ bound` such that
the first `k` characters of `s` are all in `cls` (with `k ≥ 1`) and
`after` accepts the rest.  Returns the captured characters. -/
def capSearch (cls : Char → Bool) (after : List Char → Bool)
    (s : List Char) : Nat → Option (List Char)
  | 0 => none
  | k + 1 =>
    if (s.take (k + 1)).all cls && after (s.drop (k + 1))
    then some (s.take (k + 1))
    else capSearch cls after s k

def capMatch (cls : Char → Bool) (after : List Char → Bool)
    (s : List Char) : Option (List Char) :=
  capSearch cls after s s.length

/-- `\.iso` continued by `.*`: the rest starts with `.iso` (ci). -/
def isoTail (rest : List Char) : Bool :=
  (stripCi ".iso".data rest).isSome

/-- `.iso` with an unescaped dot (pattern `virtio-win-([0-9.]+).iso`):
one arbitrary character followed by `iso` (ci). -/
def anyIsoTail (rest : List Char) : Bool :=
  match rest with
  | [] => false
  | _ :: t => (stripCi "iso".data t).isSome

/-- Character class `[0-9._]` of the RHV/RHEV version groups. -/
def verClass (c : Char) : Bool := c.isDigit || c = '.' || c = '_'

/-- Character class `[a-z0-9._-]` (case-insensitive) of the oVirt group. -/
def ovirtClass (c : Char) : Bool :=
  (97 ≤ c.toLower.toNat && c.toLower.toNat ≤ 122) || c.isDigit
    || c = '.' || c = '_' || c = '-'

/-- Character class `[0-9.]` of the virtio-win group. -/
def vwClass (c : Char) : Bool := c.isDigit || c = '.'

/-- A literal-plus-capture pattern: strip the (lowercase) literal, then
greedily capture.  Returns `none` on no match, `some version` otherwise. -/
def litCapPattern (lit : List Char) (cls : Char → Bool)
    (after : List Char → Bool) (s : List Char) : Option (List Char) :=
  match stripCi lit s with
  | none => none
  | some rest => capMatch cls after rest

/-- A bare-literal pattern: the captured version is the empty byte string
(`len(m.groups()) == 0` in hosts.py line 894). -/
def litPattern (lit : List Char) (s : List Char) : Option (List Char) :=
  match stripCi lit s with
  | none => none
  | some _ => some []

/-- `VDSMHost.TOOLS_PATTERNS` (hosts.py lines 605-614), compiled with
`re.IGNORECASE`, in source order, as priority plus matcher. -/
def tools_patterns : List (Nat × (List Char → Option (List Char))) :=
  [ (7, litCapPattern "rhv-toolssetup_".data verClass isoTail),
    (6, litPattern "rhv-tools-setup.iso".data),
    (5, litCapPattern "rhev-toolssetup_".data verClass isoTail),
    (4, litPattern "rhev-tools-setup.iso".data),
    (3, litCapPattern "ovirt-toolssetup_".data ovirtClass isoTail),
    (2, litPattern "ovirt-tools-setup.iso".data),
    (1, litCapPattern "virtio-win-".data vwClass anyIsoTail),
    (0, litPattern "virtio-win.iso".data) ]

/-- Byte-wise (here: character-wise) strict lexicographic order, the
Python `<` on the captured byte strings. -/
def verLt : List Char → List Char → Bool
  | [], [] => false
  | [], _ :: _ => true
  | _ :: _, [] => false
  | a :: as_, b :: bs =>
    if a.toNat < b.toNat then true
    else if b.toNat < a.toNat then false
    else verLt as_ bs

/-- The candidate best: name, priority, version.  `none` corresponds to
`best_version is None` (hosts.py line 884); `best_name` and
`best_priority` are set together with it. -/
abbrev IsoBest := Option (String × Nat × List Char)

/-- The update of the running best by one pattern match (hosts.py lines
899-904): replace when there is no best yet, when the priority strictly
increases, or when the priority ties and the version strictly increases. -/
def isoStep (best : IsoBest) (fname : String) (p : Nat) (ver : List Char) :
    IsoBest :=
  match best with
  | none => some (fname, p, ver)
  | some (bn, bp, bv) =>
    if bp < p || (verLt bv ver && bp = p)
    then some (fname, p, ver)
    else some (bn, bp, bv)

/-- The inner `for priority, pat in patterns` loop for one file name. -/
def isoFileStep (best : IsoBest) (fname : String)
    (pats : List (Nat × (List Char → Option (List Char)))) : IsoBest :=
  match pats with
  | [] => best
  | (p, pat) :: rest =>
    match pat fname.data with
    | none => isoFileStep best fname rest
    | some ver => isoFileStep (isoStep best fname p ver) fname rest

/-- The outer `for fname in isos` loop. -/
def foldIso (b : IsoBest) (isos : List String) : IsoBest :=
  isos.foldl (fun best fname => isoFileStep best fname tools_patterns) b

/-- `VDSMHost._filter_iso_names` (hosts.py lines 878-906) on the names
that pass the `os.path.isfile` check. -/
def filter_iso_names (isos : List String) : Option String :=
  (foldIso none isos).map (fun b => b.1)

/-- All `(priority, captured version)` matches of one file name against a
pattern list. -/
def matchesPats (pats : List (Nat × (List Char → Option (List Char))))
    (fname : String) : List (Nat × List Char) :=
  pats.filterMap
    (fun ppat => (ppat.2 fname.data).map (fun ver => (ppat.1, ver)))

/-- All `(priority, captured version)` matches of one file name against
`TOOLS_PATTERNS`. -/
def isoMatches (fname : String) : List (Nat × List Char) :=
  matchesPats tools_patterns fname

/-- Non-strict comparison on (priority, version) pairs: priority first,
then byte-wise version. -/
def pairLe (a b : Nat × List Char) : Prop :=
  a.1 < b.1 ∨ (a.1 = b.1 ∧ (verLt a.2 b.2 = true ∨ a.2 = b.2))

/-- Lookup in the `internal.disk_ids` mapping. -/
def idLookup : List (String × String) → String → Option String
  | [], _ => none
  | (k1, v) :: rest, k => if k1 = k then some v else idLookup rest k

/-! ## Helper lemmas -/

theorem pyGet_natCast {α : Type} (l : List α) (c : Nat) :
    pyGet l (c : Int) = l.get? c := by
  unfold pyGet pyIndex
  have h0 : (0 : Int) ≤ (c : Int) := Int.natCast_nonneg c
  by_cases h : (c : Int) < (l.length : Int)
  · simp [h0, h]
  · have hc : l.length ≤ c := by omega
    simp only [h0, h, if_true, if_false]
    exact (List.get?_eq_none.mpr hc).symm

theorem pySet_natCast {α : Type} (l : List α) (c : Nat) (x : α) (h : c < l.length) :
    pySet l (c : Int) x = some (l.set c x) := by
  unfold pySet
  rw [pyIndex_nonneg_lt (Int.natCast_nonneg c) (by omega)]
  simp [h]

theorem pyGet_isSome_iff {α : Type} (l : List α) (i : Int) :
    (pyGet l i).isSome ↔ (-(l.length : Int) ≤ i ∧ i < l.length) := by
  unfold pyGet pyIndex
  by_cases h0 : (0 : Int) ≤ i
  · by_cases h1 : i < (l.length : Int)
    · have hlt : i.toNat < l.length := by omega
      rw [if_pos h0, if_pos h1]
      simp only [Option.some_bind]
      rw [List.get?_eq_get hlt]
      simp only [Option.isSome_some, true_iff]
      omega
    · rw [if_pos h0, if_neg h1]
      simp only [Option.none_bind, Option.isSome_none, Bool.false_eq_true, false_iff]
      intro hc
      omega
  · by_cases h2 : -i ≤ (l.length : Int)
    · have hpos : (0 : Int) < -i := by omega
      have hle : (-i).toNat ≤ l.length := by omega
      have hlt : l.length - (-i).toNat < l.length := by omega
      rw [if_neg h0, if_pos h2]
      simp only [Option.some_bind]
      rw [List.get?_eq_get hlt]
      simp only [Option.isSome_some, true_iff]
      omega
    · rw [if_neg h0, if_neg h2]
      simp only [Option.none_bind, Option.isSome_none, Bool.false_eq_true, false_iff]
      intro hc
      omega

theorem jerase_cons (kv : String × JVal) (rest : JObj) (k : String) :
    jerase (kv :: rest) k
      = if kv.1 = k then jerase rest k else kv :: jerase rest k := by
  by_cases h : kv.1 = k <;> simp [jerase, List.filter, h]

theorem jlookup_cons (kv : String × JVal) (rest : JObj) (k : String) :
    jlookup (kv :: rest) k = if kv.1 = k then some kv.2 else jlookup rest k := rfl

theorem jlookup_jerase_self (o : JObj) (k : String) :
    jlookup (jerase o k) k = none := by
  induction o with
  | nil => rfl
  | cons kv rest ih =>
    rw [jerase_cons]
    by_cases h : kv.1 = k
    · rw [if_pos h]; exact ih
    · rw [if_neg h, jlookup_cons, if_neg h]; exact ih

theorem jlookup_jerase_ne (o : JObj) (k k1 : String) (h : k1 ≠ k) :
    jlookup (jerase o k) k1 = jlookup o k1 := by
  induction o with
  | nil => rfl
  | cons kv rest ih =>
    rw [jerase_cons]
    by_cases hk : kv.1 = k
    · have hne : kv.1 ≠ k1 := by rw [hk]; exact fun he => h he.symm
      rw [if_pos hk, ih, jlookup_cons, if_neg hne]
    · rw [if_neg hk, jlookup_cons, jlookup_cons, ih]

/-! ## Claim C7: OpenStack disk naming -/

/-- C7: `OSPHost._get_disk_name` maps 1 to `vda`, 26 to `vdz`, 27 to
`vdaa`, 52 to `vdaz`, 53 to `vdba`, 701 to `vdzy`, 702 to `vdzz`, and
raises a ValueError for every index outside 1..702. -/
theorem C7_disk_name :
    get_disk_name 1 = .ok "vda" ∧ get_disk_name 26 = .ok "vdz" ∧
    get_disk_name 27 = .ok "vdaa" ∧ get_disk_name 52 = .ok "vdaz" ∧
    get_disk_name 53 = .ok "vdba" ∧ get_disk_name 701 = .ok "vdzy" ∧
    get_disk_name 702 = .ok "vdzz" ∧
    ∀ i : Int, (i < 1 ∨ 702 < i) → ∃ e, get_disk_name i = .error e := by
  refine ⟨by rfl, by rfl, by rfl, by rfl, by rfl, by rfl, by rfl, ?_⟩
  intro i hi
  rcases hi with h | h
  · exact ⟨"Index less then 1", by simp [get_disk_name, h]⟩
  · have h1 : ¬ i < 1 := by omega
    exact ⟨"Index too large", by simp [get_disk_name, h1, h]⟩

/-- Witness for C7: the rejection clause evaluated at index 703. -/
theorem C7_disk_name_witness : ∃ e, get_disk_name 703 = .error e :=
  C7_disk_name.2.2.2.2.2.2.2 703 (Or.inr (by decide))

/-! ## Claim C3: in-pod progress annotation -/

/-- C3: the claim states that `CNVHost.update_progress` patches
`/metadata/annotations/v2vConversionProgress` with the mean progress even
when `/metadata/annotations` already exists.  The code contradicts this
(and its own comment on hosts.py line 173): the progress op and the
`self._k8s.patch` call sit inside `if "annotations" not in
pod["metadata"]`, so for a pod that already has annotations no PATCH is
issued at all.  Evaluations: with annotations present nothing is sent;
with annotations absent the ops are sent as described, with the mean
(0 for an empty disk list) as the value. -/
theorem C3_progress_patch_bug :
    update_progress [50] ⟨true, true⟩ = none ∧
    update_progress [50] ⟨true, false⟩
      = some [.addAnnotations, .setProgress 50] ∧
    update_progress [25, 75] ⟨false, false⟩
      = some [.addMetadata, .addAnnotations, .setProgress 50] ∧
    update_progress [] ⟨true, false⟩
      = some [.addAnnotations, .setProgress 0] := by
  refine ⟨rfl, ?_, ?_, ?_⟩
  all_goals simp [update_progress, progressMean]
  all_goals norm_num

/-! ## Claim C2: state persistence strips `internal` -/

/-- C2: `State.write` persists, at the state-file path, the snapshot
obtained from the in-memory state by deleting the `internal` key: every
other top-level key keeps its value in the persisted document and
`internal` is absent from it, while the in-memory state returned by the
call is unchanged and in particular still holds `internal`.  The document
reaches the state file via a sibling temp file and a rename, so the
stored document is always this complete snapshot. -/
theorem C2_state_write (st : JObj) (fs : FS) (sf tmp : String) :
    (State.write st fs sf tmp).1 = st ∧
    jlookup (State.write st fs sf tmp).1 "internal" = jlookup st "internal" ∧
    fsGet (State.write st fs sf tmp).2 sf = some (jerase st "internal") ∧
    (∀ k, k ≠ "internal" →
      jlookup (jerase st "internal") k = jlookup st k) ∧
    jlookup (jerase st "internal") "internal" = none := by
  refine ⟨rfl, rfl, ?_, ?_, jlookup_jerase_self st "internal"⟩
  · simp [State.write, fsRename, fsSet, fsGet]
  · intro k hk
    exact jlookup_jerase_ne st "internal" k hk

/-- Witness for C2: the persisted snapshot of a two-key state holds the
non-`internal` key and drops `internal`, the memory copy keeps both. -/
theorem C2_state_write_witness :
    ((State.write [("disks", JVal.arr []), ("internal", JVal.obj [])] [] "s" "t").1
       = [("disks", JVal.arr []), ("internal", JVal.obj [])]) ∧
    jlookup (jerase [("disks", JVal.arr []), ("internal", JVal.obj [])] "internal") "disks"
      = some (JVal.arr []) := by
  have h := C2_state_write [("disks", JVal.arr []), ("internal", JVal.obj [])] [] "s" "t"
  exact ⟨h.1, by rw [h.2.2.2.1 "disks" (by decide)]; rfl⟩

/-! ## Claim C10: partiality of the disk-uuid handler -/

/-- C10: the `disk.id = ...` handler records
`internal.disk_ids[disks[current_disk].path] = uuid` without error exactly
when `current_disk` is set and is a valid Python index into `disks`
(i.e. `-len ≤ current_disk < len`); with `current_disk` still `None` the
unchecked `disks[None]` raises TypeError, and with an invalid index it
raises IndexError, instead of recording or skipping. -/
theorem C10_disk_uuid (amb : Ambient) (st : VmState) (uuid : String) :
    (amb.currentDisk = none → disk_uuid_line amb st uuid = .error .typeError) ∧
    (∀ c, amb.currentDisk = some c →
      ((-(st.disks.length : Int) ≤ c ∧ c < st.disks.length) →
        ∃ d st1, pyGet st.disks c = some d ∧
          disk_uuid_line amb st uuid = .ok st1 ∧
          idLookup st1.diskIds d.path = some uuid) ∧
      (¬(-(st.disks.length : Int) ≤ c ∧ c < st.disks.length) →
        disk_uuid_line amb st uuid = .error .indexError)) := by
  refine ⟨fun h => by simp [disk_uuid_line, h], fun c hc => ⟨?_, ?_⟩⟩
  · intro hv
    obtain ⟨d, hd⟩ := Option.isSome_iff_exists.mp ((pyGet_isSome_iff st.disks c).mpr hv)
    refine ⟨d,
      { st with diskIds :=
          (d.path, uuid) :: st.diskIds.filter (fun kv => kv.1 ≠ d.path) },
      hd, ?_, ?_⟩
    · simp [disk_uuid_line, hc, hd]
    · simp [idLookup]
  · intro hnv
    have hnone : pyGet st.disks c = none := by
      cases hg : pyGet st.disks c with
      | none => rfl
      | some d =>
        exact absurd ((pyGet_isSome_iff st.disks c).mp (by simp [hg])) hnv
    simp [disk_uuid_line, hc, hnone]

/-- Witness for C10: recording succeeds at a set, valid index. -/
theorem C10_disk_uuid_witness :
    ∃ d st1, pyGet ([{ path := "/p1", progress := 0 }] : List Disk) (0 : Int) = some d ∧
      disk_uuid_line ⟨some 0, none⟩
          ⟨[{ path := "/p1", progress := 0 }], none, [], none⟩ "1111" = .ok st1 ∧
      idLookup st1.diskIds d.path = some "1111" :=
  ((C10_disk_uuid ⟨some 0, none⟩
      ⟨[{ path := "/p1", progress := 0 }], none, [], none⟩ "1111").2 0 rfl).1
    (by constructor <;> decide)

/-! ## Claim C4: Locate Disk functional correctness -/

/-- C4 counterexample: the claim asserts that after Locate Disk with path
P at current index c the entry at index c has path P, for every disks
list and every set current index.  With `disks = []` and `current_disk =
1` the fresh entry is inserted by Python `list.insert`, which clamps the
out-of-range position 1 to the end: the entry lands at index 0 and there
is no entry at index 1 at all. -/
theorem C4_locate_counterexample :
    locate_disk (some 1) "p" [] = .ok [{ path := "p", progress := 0 }] ∧
    ([{ path := "p", progress := 0 }] : List Disk).get? 1 = none :=
  ⟨rfl, rfl⟩

theorem scanFrom_cons (disks : List Disk) (p : String) (j : Int) (rest : List Int) :
    scanFrom disks p (j :: rest)
      = match pyGet disks j with
        | none => .error .indexError
        | some d => if d.path = p then .ok (some j) else scanFrom disks p rest := rfl

theorem scanFrom_cons_none {disks : List Disk} {j : Int} (p : String)
    (rest : List Int) (h : pyGet disks j = none) :
    scanFrom disks p (j :: rest) = .error .indexError := by
  rw [scanFrom_cons, h]

theorem scanFrom_cons_some {disks : List Disk} {j : Int} {d : Disk} (p : String)
    (rest : List Int) (h : pyGet disks j = some d) :
    scanFrom disks p (j :: rest)
      = if d.path = p then .ok (some j) else scanFrom disks p rest := by
  rw [scanFrom_cons, h]

theorem scanFrom_ok_some (disks : List Disk) (p : String) :
    ∀ (is : List Int) (i : Int), scanFrom disks p is = .ok (some i) →
      i ∈ is ∧ (pyGet disks i).map Disk.path = some p := by
  intro is
  induction is with
  | nil =>
    intro i h
    simp [scanFrom] at h
  | cons j rest ih =>
    intro i h
    cases hj : pyGet disks j with
    | none =>
      rw [scanFrom_cons_none p rest hj] at h
      cases h
    | some d =>
      rw [scanFrom_cons_some p rest hj] at h
      by_cases hdp : d.path = p
      · rw [if_pos hdp] at h
        obtain rfl : j = i := Option.some.inj (Except.ok.inj h)
        exact ⟨List.mem_cons_self _ _, by rw [hj]; simpa using hdp⟩
      · rw [if_neg hdp] at h
        obtain ⟨hmem, hp⟩ := ih i h
        exact ⟨List.mem_cons_of_mem _ hmem, hp⟩

theorem scanFrom_error (disks : List Disk) (p : String) :
    ∀ (is : List Int) (e : PyErr), scanFrom disks p is = .error e →
      ∃ i ∈ is, pyGet disks i = none := by
  intro is
  induction is with
  | nil =>
    intro e h
    simp [scanFrom] at h
  | cons j rest ih =>
    intro e h
    cases hj : pyGet disks j with
    | none => exact ⟨j, List.mem_cons_self _ _, hj⟩
    | some d =>
      rw [scanFrom_cons_some p rest hj] at h
      by_cases hdp : d.path = p
      · rw [if_pos hdp] at h
        cases h
      · rw [if_neg hdp] at h
        obtain ⟨i, hmem, hnone⟩ := ih e h
        exact ⟨i, List.mem_cons_of_mem _ hmem, hnone⟩

theorem findFrom_ok_some_nat {disks : List Disk} {p : String} {c : Nat} {i : Int}
    (h : findFrom disks p (c : Int) = .ok (some i)) :
    ∃ k : Nat, i = (k : Int) ∧ c ≤ k ∧ k < disks.length ∧
      (disks.get? k).map Disk.path = some p := by
  unfold findFrom at h
  obtain ⟨hmem, hp⟩ := scanFrom_ok_some disks p _ i h
  obtain ⟨j, hj, hi⟩ := List.mem_map.mp hmem
  have hjlt := List.mem_range.mp hj
  refine ⟨c + j, by omega, by omega, by omega, ?_⟩
  have hki : i = ((c + j : Nat) : Int) := by omega
  rw [hki, pyGet_natCast] at hp
  exact hp

/-- The scan never raises when `current_disk` is a natural number: every
visited index is then in `[current_disk, len)`, hence readable. -/
theorem findFrom_nat_no_error {disks : List Disk} {p : String} {c : Nat}
    {e : PyErr} : findFrom disks p (c : Int) ≠ .error e := by
  intro h
  unfold findFrom at h
  obtain ⟨i, hmem, hnone⟩ := scanFrom_error disks p _ e h
  obtain ⟨j, hj, hi⟩ := List.mem_map.mp hmem
  have hjlt := List.mem_range.mp hj
  have hik : i = ((c + j : Nat) : Int) := by omega
  rw [hik, pyGet_natCast] at hnone
  rw [List.get?_eq_none] at hnone
  omega

theorem locate_disk_some_def (c : Int) (p : String) (disks : List Disk) :
    locate_disk (some c) p disks =
      match findFrom disks p c with
      | .error e => .error e
      | .ok (some i) =>
        if i = c then .ok disks
        else
          match pyPop disks i with
          | some (d, rest) => .ok (pyInsert rest c d)
          | none => .error .indexError
      | .ok none => .ok (pyInsert disks c { path := p, progress := 0 }) := rfl

theorem locate_disk_of_error (c : Int) (p : String) (disks : List Disk)
    {e : PyErr} (h : findFrom disks p c = .error e) :
    locate_disk (some c) p disks = .error e := by
  rw [locate_disk_some_def, h]

theorem locate_disk_of_none (c : Int) (p : String) (disks : List Disk)
    (h : findFrom disks p c = .ok none) :
    locate_disk (some c) p disks
      = .ok (pyInsert disks c { path := p, progress := 0 }) := by
  rw [locate_disk_some_def, h]

theorem locate_disk_of_found (c : Int) (p : String) (disks : List Disk)
    {i : Int} (h : findFrom disks p c = .ok (some i)) :
    locate_disk (some c) p disks
      = if i = c then .ok disks
        else
          match pyPop disks i with
          | some (d, rest) => .ok (pyInsert rest c d)
          | none => .error .indexError := by
  rw [locate_disk_some_def, h]

/-- C4 amended: under the additional precondition `current_disk ≤
len(disks)` (which rules out the clamped insert of the counterexample,
and under which the scan raises no IndexError) the claim holds: Locate
Disk returns normally, the entry at index `current_disk` has path
`current_path` — left in place, moved from a later index, or freshly
inserted — and every entry at an index below `current_disk` is exactly
the entry that was there before. -/
theorem C4_locate_disk (c : Nat) (p : String) (disks : List Disk)
    (hc : c ≤ disks.length) :
    ∃ disks1, locate_disk (some (c : Int)) p disks = .ok disks1 ∧
      (disks1.get? c).map Disk.path = some p ∧
      ∀ j, j < c → disks1.get? j = disks.get? j := by
  cases hf : findFrom disks p (c : Int) with
  | error e => exact absurd hf findFrom_nat_no_error
  | ok oi =>
    cases oi with
    | none =>
      have hpos : pyInsertPos disks.length (c : Int) = c :=
        pyInsertPos_nonneg_le (Int.natCast_nonneg c) (by omega)
      have hins : pyInsert disks (c : Int) { path := p, progress := 0 }
          = disks.take c ++ { path := p, progress := 0 } :: disks.drop c := by
        unfold pyInsert
        rw [hpos]
      have hlen : (disks.take c).length = c := by
        rw [List.length_take]; omega
      refine ⟨disks.take c ++ { path := p, progress := 0 } :: disks.drop c,
        ?_, ?_, ?_⟩
      · rw [locate_disk_of_none _ _ _ hf, hins]
      · rw [List.get?_eq_getElem?, List.getElem?_append_right (by omega)]
        simp [hlen]
      · intro j hj
        rw [List.get?_eq_getElem?, List.getElem?_append, if_pos (by omega),
          List.getElem?_take, if_pos hj, List.get?_eq_getElem?]
    | some i =>
      obtain ⟨k, hik, hck, hkl, hkp⟩ := findFrom_ok_some_nat hf
      subst hik
      by_cases heq : (k : Int) = (c : Int)
      · have hkc : k = c := by omega
        subst hkc
        refine ⟨disks, ?_, hkp, fun j hj => rfl⟩
        rw [locate_disk_of_found _ _ _ hf, if_pos heq]
      · have hkc : c < k := by omega
        have hidx : pyIndex disks.length (k : Int) = some k := by
          rw [pyIndex_nonneg_lt (Int.natCast_nonneg k) (by omega)]
          simp
        obtain ⟨d, hd⟩ : ∃ d, disks.get? k = some d := by
          cases hg : disks.get? k with
          | none => rw [hg] at hkp; simp at hkp
          | some d => exact ⟨d, rfl⟩
        have hdp : d.path = p := by
          rw [hd] at hkp
          simpa using hkp
        have hd1 : disks[k]? = some d := by
          rw [← List.get?_eq_getElem?]
          exact hd
        have hpop : pyPop disks (k : Int)
            = some (d, disks.take k ++ disks.drop (k + 1)) := by
          simp [pyPop, hidx, hd1]
        have hrl : (disks.take k ++ disks.drop (k + 1)).length
            = disks.length - 1 := by
          rw [List.length_append, List.length_take, List.length_drop]
          omega
        have hpos : pyInsertPos (disks.take k ++ disks.drop (k + 1)).length
            (c : Int) = c :=
          pyInsertPos_nonneg_le (Int.natCast_nonneg c) (by omega)
        have htl : ((disks.take k ++ disks.drop (k + 1)).take c).length = c := by
          rw [List.length_take]
          omega
        refine ⟨(disks.take k ++ disks.drop (k + 1)).take c
            ++ d :: (disks.take k ++ disks.drop (k + 1)).drop c, ?_, ?_, ?_⟩
        · rw [locate_disk_of_found _ _ _ hf]
          simp only [if_neg heq, hpop]
          unfold pyInsert
          rw [hpos]
        · rw [List.get?_eq_getElem?, List.getElem?_append_right (by omega)]
          simp [htl, hdp]
        · intro j hj
          rw [List.get?_eq_getElem?, List.getElem?_append, if_pos (by omega),
            List.getElem?_take, if_pos hj,
            List.getElem?_append, if_pos (by rw [List.length_take]; omega),
            List.getElem?_take, if_pos (by omega), List.get?_eq_getElem?]

/-- Witness for C4 amended: moving the entry from index 1 to index 0. -/
theorem C4_locate_disk_witness :
    ∃ disks1, locate_disk (some ((0 : Nat) : Int)) "a"
        [{ path := "b", progress := 3 }, { path := "a", progress := 7 }]
          = .ok disks1 ∧
      (disks1.get? 0).map Disk.path = some "a" ∧
      ∀ j, j < 0 → disks1.get? j
        = [{ path := "b", progress := 3 },
           { path := "a", progress := 7 }].get? j :=
  C4_locate_disk 0 "a"
    [{ path := "b", progress := 3 }, { path := "a", progress := 7 }] (by omega)

/-! ## Claim C1: per-index progress monotonicity -/

/-- C1 counterexample: the claim asserts that applying a progress line
never decreases `disks[i].progress` for any i.  The handler assigns the
parsed value unconditionally: applying `  (10.0/100%)` to a disk whose
progress is 50 lowers it to 10. -/
theorem C1_progress_counterexample :
    progress_line ⟨some 0, some "p"⟩ [{ path := "p", progress := 50 }] 10
      = .ok [{ path := "p", progress := 10 }] ∧ (10 : ℚ) < 50 :=
  ⟨rfl, by norm_num⟩

theorem pyInsert_perm {α : Type} (l : List α) (i : Int) (a : α) :
    (pyInsert l i a).Perm (a :: l) := by
  have h : (l.take (pyInsertPos l.length i) ++ a :: l.drop (pyInsertPos l.length i)).Perm
      (a :: (l.take (pyInsertPos l.length i) ++ l.drop (pyInsertPos l.length i))) :=
    List.perm_middle
  rw [List.take_append_drop] at h
  exact h

theorem pyPop_eq_some {α : Type} {l : List α} {i : Int} {a : α} {rest : List α}
    (h : pyPop l i = some (a, rest)) :
    ∃ k, pyIndex l.length i = some k ∧ l.get? k = some a ∧
      rest = l.take k ++ l.drop (k + 1) := by
  unfold pyPop at h
  split at h
  · exact absurd h (by simp)
  · rename_i k hidx
    split at h
    · exact absurd h (by simp)
    · rename_i b hget
      have hpair := Option.some.inj h
      refine ⟨k, hidx, ?_, (congrArg Prod.snd hpair).symm⟩
      rw [hget]
      exact congrArg some (congrArg Prod.fst hpair)

theorem pyPop_perm {α : Type} {l : List α} {i : Int} {a : α} {rest : List α}
    (h : pyPop l i = some (a, rest)) : l.Perm (a :: rest) := by
  obtain ⟨k, hidx, hget, hrest⟩ := pyPop_eq_some h
  obtain ⟨hk, hGet⟩ := List.get?_eq_some.mp hget
  subst hrest
  have hl : l[k] = a := by rw [← hGet, List.get_eq_getElem]
  have hdecomp : l = l.take k ++ a :: l.drop (k + 1) := by
    rw [← hl, List.getElem_cons_drop, List.take_append_drop]
  conv_lhs => rw [hdecomp]
  exact List.perm_middle

/-- C1 amended: what actually holds.  A progress line with value `v` at a
known disk rewrites exactly the entry at `current_disk`, setting its
progress to `v` and leaving every other index unchanged, so per-index
progress is non-decreasing provided the parsed value is at least the
current progress of that entry (the converter emits non-decreasing
percentages; the code does not enforce this).  A Locate Disk step that
completes without raising — an out-of-range scan read, reachable at
`current_disk = -1` from a `Copying disk 0/M` line with empty `disks`,
raises IndexError and aborts before any mutation — never changes the
progress of an existing entry: its result is a permutation of the
previous list, or of the previous list extended with the fresh entry
carrying progress 0.  Per-index progress can still drop when entries are
shifted, which is the index-shift part of the counterexample family. -/
theorem C1_progress_monotonicity :
    (∀ (path : String) (c : Nat) (disks : List Disk) (v : ℚ) (d : Disk),
      disks.get? c = some d →
      progress_line ⟨some (c : Int), some path⟩ disks v
          = .ok (disks.set c { d with progress := v }) ∧
      (∀ j, j ≠ c → (disks.set c { d with progress := v }).get? j = disks.get? j) ∧
      (d.progress ≤ v → ∀ j dj dj',
        disks.get? j = some dj →
        (disks.set c { d with progress := v }).get? j = some dj' →
        dj.progress ≤ dj'.progress)) ∧
    (∀ (c : Int) (p : String) (disks disks1 : List Disk),
      locate_disk (some c) p disks = .ok disks1 →
      disks1.Perm disks ∨
      disks1.Perm ({ path := p, progress := 0 } :: disks)) := by
  constructor
  · intro path c disks v d hd
    obtain ⟨hlt, hGet⟩ := List.get?_eq_some.mp hd
    refine ⟨?_, ?_, ?_⟩
    · simp only [progress_line, pyGet_natCast, hd, pySet_natCast disks c _ hlt]
    · intro j hj
      rw [List.get?_eq_getElem?, List.getElem?_set_ne (fun he => hj he.symm),
        List.get?_eq_getElem?]
    · intro hle j dj dj' hj hj'
      by_cases hjc : j = c
      · subst hjc
        rw [List.get?_eq_getElem?, List.getElem?_set_eq_of_lt _ hlt] at hj'
        have hdj : dj = d := by
          rw [hd] at hj
          exact Option.some.inj hj.symm
        have hdj' : dj' = { d with progress := v } := (Option.some.inj hj').symm
        rw [hdj, hdj']
        exact hle
      · rw [List.get?_eq_getElem?, List.getElem?_set_ne (fun he => hjc he.symm),
          ← List.get?_eq_getElem?, hj] at hj'
        have : dj' = dj := (Option.some.inj hj').symm
        rw [this]
  · intro c p disks disks1 hok
    cases hf : findFrom disks p c with
    | error e =>
      rw [locate_disk_of_error c p disks hf] at hok
      cases hok
    | ok oi =>
      cases oi with
      | none =>
        rw [locate_disk_of_none c p disks hf] at hok
        obtain rfl : pyInsert disks c { path := p, progress := 0 } = disks1 :=
          Except.ok.inj hok
        exact Or.inr (pyInsert_perm disks c _)
      | some i =>
        rw [locate_disk_of_found c p disks hf] at hok
        by_cases heq : i = c
        · rw [if_pos heq] at hok
          obtain rfl : disks = disks1 := Except.ok.inj hok
          exact Or.inl (List.Perm.refl disks)
        · rw [if_neg heq] at hok
          split at hok
          · rename_i d rest hpop
            obtain rfl : pyInsert rest c d = disks1 := Except.ok.inj hok
            exact Or.inl ((pyInsert_perm rest c d).trans (pyPop_perm hpop).symm)
          · cases hok

/-- Witness for C1 amended: a progress line rewriting the only entry. -/
theorem C1_progress_monotonicity_witness :
    progress_line ⟨some ((0 : Nat) : Int), some "p"⟩
        [{ path := "p", progress := 0 }] 5
      = .ok ([{ path := "p", progress := 0 }].set 0
          { path := "p", progress := 5 }) :=
  (C1_progress_monotonicity.1 "p" 0 [{ path := "p", progress := 0 }] 5
    { path := "p", progress := 0 } rfl).1

/-! ## Claim C9: password masking in logged commands -/

/-- C9 counterexample: the claim asserts that every `name=value` argument
whose name contains `password` is masked.  The source loop starts at
index 1 (`for i in xrange(1, len(args))`, common.py line 90), so an
argument in position 0 is logged verbatim, and two calls differing only
in that password value produce different log output. -/
theorem C9_mask_counterexample :
    (log_command_safe ["password=secret"] []).1 = ["password=secret"] ∧
    containsPassword "password" = true ∧
    log_command_safe ["password=a"] [] ≠ log_command_safe ["password=b"] [] := by
  exact ⟨rfl, by decide, by decide⟩

theorem splitEq_append {n rest : List Char} (h : ∀ c ∈ n, c ≠ '=') :
    splitEq (n ++ '=' :: rest) = some (n, rest) := by
  induction n with
  | nil => simp [splitEq]
  | cons c cs ih =>
    have hc : c ≠ '=' := h c (List.mem_cons_self c cs)
    have ih1 := ih (fun x hx => h x (List.mem_cons_of_mem c hx))
    show (if c = '=' then some ([], cs ++ '=' :: rest)
        else (splitEq (cs ++ '=' :: rest)).map (fun ab => (c :: ab.1, ab.2)))
      = some (c :: cs, rest)
    rw [if_neg hc, ih1]
    rfl

theorem mask_arg_masks (name v : String) (hne : ∀ c ∈ name.data, c ≠ '=')
    (hp : containsPassword name = true) :
    mask_arg (name ++ "=" ++ v) = name ++ "=*****" := by
  unfold mask_arg
  have hdata : (name ++ "=" ++ v).data = name.data ++ '=' :: v.data := by
    simp [String.data_append]
  rw [hdata, splitEq_append hne]
  unfold containsPassword at hp
  simp [hp]

/-- C9 amended: `log_command_safe` leaves the argument at index 0 (the
command name, which the loop starting at index 1 never inspects)
unchanged; every later argument of the form `name=value` whose name
contains `password` case-insensitively is logged as `name=*****`; every
environment entry whose key contains `password` case-insensitively has
its value replaced by `*****` and every other entry is unchanged;
consequently two calls that differ only in password values of later
arguments and of password-keyed environment entries log identically.
(The source deep-copies its inputs, so the caller's data is never
modified.) -/
theorem C9_sanitizer :
    (∀ (a0 : String) (rest : List String) (env : List (String × String)),
      (log_command_safe (a0 :: rest) env).1 = a0 :: rest.map mask_arg) ∧
    (∀ (name v : String), (∀ c ∈ name.data, c ≠ '=') →
      containsPassword name = true →
      mask_arg (name ++ "=" ++ v) = name ++ "=*****") ∧
    (∀ (args : List String) (env : List (String × String)),
      (log_command_safe args env).2
        = env.map (fun kv =>
            if containsPassword kv.1 then (kv.1, "*****") else kv)) ∧
    (∀ (a0 : String) (rest1 rest2 : List String)
        (env1 env2 : List (String × String)),
      List.Forall₂ (fun a b => a = b ∨
        ∃ n v w, (∀ c ∈ n.data, c ≠ '=') ∧ containsPassword n = true ∧
          a = n ++ "=" ++ v ∧ b = n ++ "=" ++ w) rest1 rest2 →
      List.Forall₂ (fun x y => x.1 = y.1 ∧
        (x.2 = y.2 ∨ containsPassword x.1 = true)) env1 env2 →
      log_command_safe (a0 :: rest1) env1 = log_command_safe (a0 :: rest2) env2) := by
  refine ⟨fun a0 rest env => rfl, mask_arg_masks, fun args env => rfl, ?_⟩
  intro a0 rest1 rest2 env1 env2 hargs henv
  unfold log_command_safe
  refine congrArg₂ Prod.mk ?_ ?_
  · refine congrArg (List.cons a0) ?_
    induction hargs with
    | nil => rfl
    | cons hab htail ih =>
      refine congrArg₂ List.cons ?_ ih
      rcases hab with rfl | ⟨n, v, w, hne, hp, rfl, rfl⟩
      · rfl
      · rw [mask_arg_masks n v hne hp, mask_arg_masks n w hne hp]
  · induction henv with
    | nil => rfl
    | cons hxy htail ih =>
      refine congrArg₂ List.cons ?_ ih
      obtain ⟨hk, hv⟩ := hxy
      rcases hv with hv | hv
      · rw [Prod.ext hk hv]
      · simp only [← hk, hv, if_true]

/-- Witness for C9 amended: a later password argument is masked. -/
theorem C9_sanitizer_witness :
    mask_arg ("Password" ++ "=" ++ "x") = "Password" ++ "=*****" :=
  C9_sanitizer.2.1 "Password" "x" (by decide) (by decide)

/-! ## Claim C6: run-controller exit codes -/

/-- C6 counterexample: the claim asserts exit status 2 whenever the
final state has `failed = true`, and status 1 only on early validation
failure before any side effects.  Both parts fail on the code: an
exception raised by `handle_finish` is caught (line 573), `failed :=
true` and `finished := true` are persisted, and the exception is
re-raised (lines 580 and 616), so the interpreter exits with status 1
while the final state has `failed = true`; and the LUKS-vault checks
`hard_error` to exit 1 (lines 507-514) after the password files were
already written (lines 485-499). -/
theorem C6_exit_counterexample :
    (main_run ⟨true, some "vddk", true, true, true, none⟩ none none
        ⟨false, false, 0, .raised, .ok⟩).failed = true ∧
    (main_run ⟨true, some "vddk", true, true, true, none⟩ none none
        ⟨false, false, 0, .raised, .ok⟩).exitCode = 1 ∧
    (main_run ⟨true, some "vddk", true, true, true, none⟩ none
        (some "LUKS keys vault ownership") ⟨false, false, 0, .ok true, .ok⟩).exitCode
      = 1 ∧
    (main_run ⟨true, some "vddk", true, true, true, none⟩ none
        (some "LUKS keys vault ownership")
        ⟨false, false, 0, .ok true, .ok⟩).secretsWritten = true := by
  refine ⟨by decide, by decide, by decide, by decide⟩

theorem finish_failed_of_raised {f : FinishResult}
    (h : finish_raised f = true) : finish_failed f = true := by
  cases f with
  | ok b => simp [finish_raised] at h
  | raised => rfl

theorem finish_raised_eq_false {f : FinishResult}
    (h : finish_failed f = false) : finish_raised f = false := by
  cases f with
  | ok b => rfl
  | raised => simp [finish_failed] at h

theorem final_failed_of_escaped {ro : RunOutcome}
    (h : exn_escaped ro = true) : final_failed ro = true := by
  unfold exn_escaped at h
  rw [Bool.or_eq_true] at h
  rcases h with h | h
  · rw [Bool.and_eq_true] at h
    unfold final_failed
    rw [finish_failed_of_raised h.2, Bool.or_true]
  · rw [Bool.and_eq_true] at h
    exact h.1

theorem exn_escaped_of_ok {ro : RunOutcome}
    (h : final_failed ro = false) : exn_escaped ro = false := by
  have h2 := h
  unfold final_failed at h2
  simp at h2
  unfold exn_escaped
  rw [h, finish_raised_eq_false h2.2]
  simp

/-- C6 amended: generic and back-end validation failures exit 1 before
any password file is written; the LUKS-vault check also exits 1 but
after the password files exist, and persists nothing.  In the run phase
`finished = true` is always persisted, the final failed flag reflects
start failure / monitor exception / non-zero converter exit /
`handle_finish`, and: when no exception escapes (a `handle_finish` and,
if cleanup ran, a `handle_cleanup` that return), the process exits 2 on
failure and 0 on success; when an exception escapes, the interpreter
exits 1 even though the state is failed; a succeeding run never has an
escaping exception, so success always exits 0. -/
theorem C6_exit_codes (d : Request) (be luks : Option String)
    (ro : RunOutcome) :
    (∀ e, generic_validate d = some e →
      main_run d be luks ro = ⟨1, false, false, false, false⟩) ∧
    (generic_validate d = none → ∀ e, be = some e →
      main_run d be luks ro = ⟨1, false, false, false, false⟩) ∧
    (generic_validate d = none → be = none → ∀ e, luks = some e →
      main_run d be luks ro = ⟨1, true, false, false, false⟩) ∧
    (generic_validate d = none → be = none → luks = none →
      (main_run d be luks ro).finishedPersisted = true ∧
      (main_run d be luks ro).secretsWritten = true ∧
      (main_run d be luks ro).failed = final_failed ro ∧
      (main_run d be luks ro).escapedExn = exn_escaped ro ∧
      (exn_escaped ro = false →
        (main_run d be luks ro).exitCode
          = if final_failed ro = true then 2 else 0) ∧
      (exn_escaped ro = true →
        (main_run d be luks ro).exitCode = 1 ∧ final_failed ro = true) ∧
      (final_failed ro = false → (main_run d be luks ro).exitCode = 0)) := by
  refine ⟨fun e he => by simp [main_run, he],
    fun hg e hb => by simp [main_run, hg, hb],
    fun hg hb e hl => by simp [main_run, hg, hb, hl], ?_⟩
  intro hg hb hl
  simp only [main_run, hg, hb, hl]
  refine ⟨by trivial, by trivial, by trivial, by trivial, ?_, ?_, ?_⟩
  · intro hesc
    simp [hesc]
  · intro hesc
    exact ⟨by simp [hesc], final_failed_of_escaped hesc⟩
  · intro hff
    simp [hff, exn_escaped_of_ok hff]

/-- Witness for C6 amended: a vddk request with all keys present,
converter exit status 3, returning `handle_finish`: no exception
escapes and the run exits by the failed/success rule. -/
theorem C6_exit_codes_witness :
    (main_run ⟨true, some "vddk", true, true, true, none⟩ none none
        ⟨false, false, 3, .ok true, .ok⟩).exitCode
      = if final_failed ⟨false, false, 3, .ok true, .ok⟩ = true then 2 else 0 :=
  ((C6_exit_codes ⟨true, some "vddk", true, true, true, none⟩ none none
      ⟨false, false, 3, .ok true, .ok⟩).2.2.2 (by decide) rfl rfl).2.2.2.2.1
    (by decide)

/-! ## Claim C5: throttling drop-file handling -/

theorem ThrottleOut.append_cpuCalls (a b : ThrottleOut) :
    (a.append b).cpuCalls = a.cpuCalls ++ b.cpuCalls := rfl

theorem throttle_entries_cpuCalls_mem (thr : Throttling)
    (cpuOk netOk : String → Bool) (entries : List (String × TVal)) (c : String) :
    c ∈ (throttle_entries thr cpuOk netOk entries).cpuCalls ↔
      ∃ kv ∈ entries, c ∈ (handle_entry thr cpuOk netOk kv.1 kv.2).cpuCalls := by
  induction entries with
  | nil => simp [throttle_entries, ThrottleOut.empty]
  | cons kv rest ih =>
    rw [show throttle_entries thr cpuOk netOk (kv :: rest)
        = (handle_entry thr cpuOk netOk kv.1 kv.2).append
            (throttle_entries thr cpuOk netOk rest) from rfl,
      ThrottleOut.append_cpuCalls]
    simp only [List.mem_append, List.mem_cons, ih]
    constructor
    · rintro (h | ⟨kv1, hkv1, hc⟩)
      · exact ⟨kv, Or.inl rfl, h⟩
      · exact ⟨kv1, Or.inr hkv1, hc⟩
    · rintro ⟨kv1, hkv1 | hkv1, hc⟩
      · subst hkv1; exact Or.inl hc
      · exact Or.inr ⟨kv1, hkv1, hc⟩

theorem handle_entry_cpuCalls_sound {thr : Throttling} {cpuOk netOk : String → Bool}
    {k : String} {v : TVal} {c : String}
    (h : c ∈ (handle_entry thr cpuOk netOk k v).cpuCalls) :
    k = "cpu" ∧ ∃ val, cpuValSet v = some (val, c) ∧ thr.cpu ≠ some val := by
  unfold handle_entry at h
  by_cases hk : k = "cpu"
  · rw [if_pos hk] at h
    refine ⟨hk, ?_⟩
    split at h
    · simp at h
    · rename_i val sv hcv
      split at h
      · rename_i hne
        split at h
        · simp at h
          exact ⟨val, by rw [hcv, h], hne⟩
        · simp at h
          exact ⟨val, by rw [hcv, h], hne⟩
      · simp at h
  · rw [if_neg hk] at h
    by_cases hn : k = "network"
    · rw [if_pos hn] at h
      exfalso
      split at h
      · simp at h
      · split at h
        · split at h
          · simp at h
          · simp at h
        · simp at h
    · rw [if_neg hn] at h
      simp at h

theorem handle_entry_cpuCalls_complete {thr : Throttling}
    {cpuOk netOk : String → Bool} {v : TVal} {val set_val : String}
    (hcv : cpuValSet v = some (val, set_val)) (hne : thr.cpu ≠ some val) :
    set_val ∈ (handle_entry thr cpuOk netOk "cpu" v).cpuCalls := by
  by_cases hok : cpuOk set_val = true
  · simp [handle_entry, hcv, hne, hok]
  · simp [handle_entry, hcv, hne, hok]

/-- C5: on a systemd runner, every `CPUQuota` property value sent by
`throttling_update` comes from a `cpu` entry of the drop-file content and
is the empty string for `null`/`"unlimited"` and `<digits>%` for a string
matching `([+0-9]+)%?$` (conjunct 1); such a value is actually sent
whenever it differs from the currently applied limit (conjunct 2); keys
other than `cpu` and `network` are ignored with no error, no runner call
and no state change (conjunct 3); and the drop-file is removed exactly
on a successful read, whatever its content — also when the runner check
or the entries then do nothing (conjuncts 4 and 5). -/
theorem C5_throttling (thr : Throttling) (cpuOk netOk : String → Bool) :
    (∀ entries c, c ∈ (throttling_update thr cpuOk netOk entries).1.cpuCalls →
      ∃ v, ("cpu", v) ∈ entries ∧
        ((v = TVal.null ∨ v = TVal.str "unlimited") → c = "") ∧
        (∀ s g, v = TVal.str s → parse_cpu_val s = some g → c = g ++ "%")) ∧
    (∀ entries v val set_val, ("cpu", v) ∈ entries →
      cpuValSet v = some (val, set_val) → thr.cpu ≠ some val →
      set_val ∈ (throttling_update thr cpuOk netOk entries).1.cpuCalls) ∧
    (∀ entries, (∀ kv ∈ entries, kv.1 ≠ "cpu" ∧ kv.1 ≠ "network") →
      throttling_update thr cpuOk netOk entries = (ThrottleOut.empty, thr)) ∧
    (∀ sys entries,
      (throttling_update_io thr cpuOk netOk sys
        (DropFile.content entries)).fileRemoved = true) ∧
    (∀ sys,
      (throttling_update_io thr cpuOk netOk sys DropFile.absent).fileRemoved = false ∧
      (throttling_update_io thr cpuOk netOk sys DropFile.invalid).fileRemoved = false) := by
  refine ⟨?_, ?_, ?_, ?_, ?_⟩
  · intro entries c hc
    obtain ⟨kv, hkv, hcall⟩ :=
      (throttle_entries_cpuCalls_mem thr cpuOk netOk entries c).mp hc
    obtain ⟨hk, val, hcv, hne⟩ := handle_entry_cpuCalls_sound hcall
    refine ⟨kv.2, by rw [← hk]; exact hkv, ?_, ?_⟩
    · rintro (hv | hv) <;> rw [hv] at hcv
      · have h2 : (some ("unlimited", "") : Option (String × String)) = some (val, c) := hcv
        exact (congrArg Prod.snd (Option.some.inj h2)).symm
      · have h2 : (some ("unlimited", "") : Option (String × String)) = some (val, c) := hcv
        exact (congrArg Prod.snd (Option.some.inj h2)).symm
    · intro s g hv hg
      rw [hv] at hcv
      by_cases hs : s = "unlimited"
      · subst hs
        have hnone : parse_cpu_val "unlimited" = none := by decide
        rw [hnone] at hg
        cases hg
      · have h2 : (some (g ++ "%", g ++ "%") : Option (String × String)) = some (val, c) := by
          rw [← hcv]
          simp [cpuValSet, hs, hg]
        exact (congrArg Prod.snd (Option.some.inj h2)).symm
  · intro entries v val set_val hmem hcv hne
    refine (throttle_entries_cpuCalls_mem thr cpuOk netOk entries set_val).mpr
      ⟨("cpu", v), hmem, handle_entry_cpuCalls_complete hcv hne⟩
  · intro entries hunk
    have hloop : throttle_entries thr cpuOk netOk entries = ThrottleOut.empty := by
      induction entries with
      | nil => rfl
      | cons kv rest ih =>
        have hkv := hunk kv (List.mem_cons_self kv rest)
        have hrest := ih (fun x hx => hunk x (List.mem_cons_of_mem kv hx))
        rw [show throttle_entries thr cpuOk netOk (kv :: rest)
            = (handle_entry thr cpuOk netOk kv.1 kv.2).append
                (throttle_entries thr cpuOk netOk rest) from rfl,
          hrest]
        unfold handle_entry
        rw [if_neg hkv.1, if_neg hkv.2]
        rfl
    unfold throttling_update
    rw [hloop]
    rfl
  · intro sys entries
    by_cases hs : sys = true
    · simp [throttling_update_io, hs]
    · simp [throttling_update_io, hs]
  · intro sys
    exact ⟨rfl, rfl⟩

/-- Witness for C5: a drop-file `{"cpu": "50"}` with no limit currently
applied sends `CPUQuota=50%`. -/
theorem C5_throttling_witness :
    "50%" ∈ (throttling_update ⟨none, none⟩ (fun _ => true) (fun _ => true)
      [("cpu", TVal.str "50")]).1.cpuCalls :=
  (C5_throttling ⟨none, none⟩ (fun _ => true) (fun _ => true)).2.1
    [("cpu", TVal.str "50")] (TVal.str "50") "50%" "50%"
    (List.mem_singleton.mpr rfl) (by decide) (by decide)

/-! ## Claim C8: ISO ranking -/

theorem char_eq_of_toNat_eq {a b : Char} (h : a.toNat = b.toNat) : a = b := by
  have ha := Char.ofNat_toNat a
  rw [← ha, h, Char.ofNat_toNat]

theorem verLt_trans : ∀ (a b c : List Char),
    verLt a b = true → verLt b c = true → verLt a c = true := by
  intro a
  induction a with
  | nil =>
    intro b c hab hbc
    cases b with
    | nil => simp [verLt] at hab
    | cons b bs =>
      cases c with
      | nil => simp [verLt] at hbc
      | cons c cs => simp [verLt]
  | cons a as ih =>
    intro b c hab hbc
    cases b with
    | nil => simp [verLt] at hab
    | cons b bs =>
      cases c with
      | nil => simp [verLt] at hbc
      | cons c cs =>
        simp only [verLt] at hab hbc ⊢
        by_cases h1 : a.toNat < b.toNat
        · by_cases h2 : b.toNat < c.toNat
          · rw [if_pos (by omega)]
          · by_cases h3 : c.toNat < b.toNat
            · rw [if_neg h2, if_pos h3] at hbc
              cases hbc
            · rw [if_pos (by omega)]
        · by_cases h3 : b.toNat < a.toNat
          · rw [if_neg h1, if_pos h3] at hab
            cases hab
          · rw [if_neg h1, if_neg h3] at hab
            by_cases h2 : b.toNat < c.toNat
            · rw [if_pos (by omega)]
            · by_cases h4 : c.toNat < b.toNat
              · rw [if_neg h2, if_pos h4] at hbc
                cases hbc
              · rw [if_neg h2, if_neg h4] at hbc
                rw [if_neg (by omega), if_neg (by omega)]
                exact ih bs cs hab hbc

theorem verLt_total : ∀ (a b : List Char),
    verLt a b = true ∨ verLt b a = true ∨ a = b := by
  intro a
  induction a with
  | nil =>
    intro b
    cases b with
    | nil => exact Or.inr (Or.inr rfl)
    | cons b bs => exact Or.inl (by simp [verLt])
  | cons a as ih =>
    intro b
    cases b with
    | nil => exact Or.inr (Or.inl (by simp [verLt]))
    | cons b bs =>
      rcases Nat.lt_trichotomy a.toNat b.toNat with h | h | h
      · exact Or.inl (by simp [verLt, h])
      · have hab : a = b := char_eq_of_toNat_eq h
        subst hab
        rcases ih bs with h1 | h1 | h1
        · exact Or.inl (by simp [verLt, h1])
        · exact Or.inr (Or.inl (by simp [verLt, h1]))
        · exact Or.inr (Or.inr (by rw [h1]))
      · exact Or.inr (Or.inl (by simp [verLt, h]))

theorem pairLe_refl (x : Nat × List Char) : pairLe x x :=
  Or.inr ⟨rfl, Or.inr rfl⟩

theorem pairLe_trans {x y z : Nat × List Char}
    (h1 : pairLe x y) (h2 : pairLe y z) : pairLe x z := by
  rcases h1 with h1 | ⟨he1, hv1⟩
  · rcases h2 with h2 | ⟨he2, hv2⟩
    · exact Or.inl (lt_trans h1 h2)
    · exact Or.inl (he2 ▸ h1)
  · rcases h2 with h2 | ⟨he2, hv2⟩
    · exact Or.inl (he1 ▸ h2)
    · refine Or.inr ⟨he1.trans he2, ?_⟩
      rcases hv1 with hv1 | hv1
      · rcases hv2 with hv2 | hv2
        · exact Or.inl (verLt_trans _ _ _ hv1 hv2)
        · exact Or.inl (hv2 ▸ hv1)
      · rcases hv2 with hv2 | hv2
        · exact Or.inl (hv1 ▸ hv2)
        · exact Or.inr (hv1.trans hv2)

/-- Order on running bests: `none` (no match yet) is below everything. -/
def bestLe : IsoBest → IsoBest → Prop
  | none, _ => True
  | some _, none => False
  | some x, some y => pairLe (x.2.1, x.2.2) (y.2.1, y.2.2)

/-- A (priority, version) pair is dominated by a running best. -/
def pvLe (pv : Nat × List Char) : IsoBest → Prop
  | none => False
  | some y => pairLe pv (y.2.1, y.2.2)

theorem bestLe_refl (b : IsoBest) : bestLe b b := by
  cases b with
  | none => trivial
  | some x => exact pairLe_refl _

theorem bestLe_trans {a b c : IsoBest}
    (h1 : bestLe a b) (h2 : bestLe b c) : bestLe a c := by
  cases a with
  | none => trivial
  | some x =>
    cases b with
    | none => exact absurd h1 (by simp [bestLe])
    | some y =>
      cases c with
      | none => exact absurd h2 (by simp [bestLe])
      | some z => exact pairLe_trans h1 h2

theorem pvLe_mono {pv : Nat × List Char} {b b1 : IsoBest}
    (h1 : pvLe pv b) (h2 : bestLe b b1) : pvLe pv b1 := by
  cases b with
  | none => exact absurd h1 (by simp [pvLe])
  | some y =>
    cases b1 with
    | none => exact absurd h2 (by simp [bestLe])
    | some z => exact pairLe_trans h1 h2

theorem isoStep_some (bn fname : String) (bp p : Nat) (bv v : List Char) :
    isoStep (some (bn, bp, bv)) fname p v
      = if bp < p || (verLt bv v && bp = p) then some (fname, p, v)
        else some (bn, bp, bv) := rfl

theorem isoStep_bestLe (best : IsoBest) (fname : String) (p : Nat)
    (v : List Char) : bestLe best (isoStep best fname p v) := by
  cases best with
  | none => trivial
  | some b =>
    obtain ⟨bn, bp, bv⟩ := b
    rw [isoStep_some]
    by_cases hcond : (bp < p || (verLt bv v && decide (bp = p))) = true
    · rw [if_pos hcond]
      rw [Bool.or_eq_true] at hcond
      rcases hcond with h | h
      · exact Or.inl (of_decide_eq_true h)
      · rw [Bool.and_eq_true] at h
        exact Or.inr ⟨of_decide_eq_true h.2, Or.inl h.1⟩
    · rw [if_neg hcond]
      exact pairLe_refl _

theorem isoStep_pvLe (best : IsoBest) (fname : String) (p : Nat)
    (v : List Char) : pvLe (p, v) (isoStep best fname p v) := by
  cases best with
  | none => exact pairLe_refl _
  | some b =>
    obtain ⟨bn, bp, bv⟩ := b
    rw [isoStep_some]
    by_cases hcond : (bp < p || (verLt bv v && decide (bp = p))) = true
    · rw [if_pos hcond]
      exact pairLe_refl _
    · rw [if_neg hcond]
      rw [Bool.or_eq_true, not_or, Bool.and_eq_true] at hcond
      obtain ⟨hnp, hnv⟩ := hcond
      have hnp1 : ¬ bp < p := fun hlt => hnp (decide_eq_true hlt)
      rcases Nat.lt_trichotomy p bp with h | h | h
      · exact Or.inl h
      · refine Or.inr ⟨h, ?_⟩
        rcases verLt_total v bv with h1 | h1 | h1
        · exact Or.inl h1
        · exfalso
          exact hnv ⟨h1, decide_eq_true h.symm⟩
        · exact Or.inr h1
      · exact absurd h hnp1

theorem isoStep_cases (best : IsoBest) (fname : String) (p : Nat)
    (v : List Char) :
    isoStep best fname p v = best ∨ isoStep best fname p v = some (fname, p, v) := by
  cases best with
  | none => exact Or.inr rfl
  | some b =>
    obtain ⟨bn, bp, bv⟩ := b
    rw [isoStep_some]
    by_cases hcond : (bp < p || (verLt bv v && decide (bp = p))) = true
    · rw [if_pos hcond]
      exact Or.inr rfl
    · rw [if_neg hcond]
      exact Or.inl rfl

theorem isoFileStep_cons_none {fname : String}
    {pat : List Char → Option (List Char)} (best : IsoBest) (p : Nat)
    (rest : List (Nat × (List Char → Option (List Char))))
    (h : pat fname.data = none) :
    isoFileStep best fname ((p, pat) :: rest) = isoFileStep best fname rest := by
  rw [show isoFileStep best fname ((p, pat) :: rest)
      = (match pat fname.data with
         | none => isoFileStep best fname rest
         | some ver => isoFileStep (isoStep best fname p ver) fname rest) from rfl,
    h]

theorem isoFileStep_cons_some {fname : String}
    {pat : List Char → Option (List Char)} {ver : List Char} (best : IsoBest)
    (p : Nat) (rest : List (Nat × (List Char → Option (List Char))))
    (h : pat fname.data = some ver) :
    isoFileStep best fname ((p, pat) :: rest)
      = isoFileStep (isoStep best fname p ver) fname rest := by
  rw [show isoFileStep best fname ((p, pat) :: rest)
      = (match pat fname.data with
         | none => isoFileStep best fname rest
         | some ver => isoFileStep (isoStep best fname p ver) fname rest) from rfl,
    h]

theorem matchesPats_cons_none {fname : String}
    {pat : List Char → Option (List Char)} (p : Nat)
    (rest : List (Nat × (List Char → Option (List Char))))
    (h : pat fname.data = none) :
    matchesPats ((p, pat) :: rest) fname = matchesPats rest fname := by
  simp [matchesPats, List.filterMap_cons, h]

theorem matchesPats_cons_some {fname : String}
    {pat : List Char → Option (List Char)} {ver : List Char} (p : Nat)
    (rest : List (Nat × (List Char → Option (List Char))))
    (h : pat fname.data = some ver) :
    matchesPats ((p, pat) :: rest) fname
      = (p, ver) :: matchesPats rest fname := by
  simp [matchesPats, List.filterMap_cons, h]

theorem isoFileStep_bestLe :
    ∀ (pats : List (Nat × (List Char → Option (List Char))))
      (best : IsoBest) (fname : String),
    bestLe best (isoFileStep best fname pats) := by
  intro pats
  induction pats with
  | nil => intro best fname; exact bestLe_refl best
  | cons ppat rest ih =>
    intro best fname
    obtain ⟨p, pat⟩ := ppat
    cases h : pat fname.data with
    | none =>
      rw [isoFileStep_cons_none best p rest h]
      exact ih best fname
    | some ver =>
      rw [isoFileStep_cons_some best p rest h]
      exact bestLe_trans (isoStep_bestLe best fname p ver) (ih _ fname)

theorem isoFileStep_matches :
    ∀ (pats : List (Nat × (List Char → Option (List Char))))
      (best : IsoBest) (fname : String) (pv : Nat × List Char),
    pv ∈ matchesPats pats fname → pvLe pv (isoFileStep best fname pats) := by
  intro pats
  induction pats with
  | nil =>
    intro best fname pv hpv
    simp [matchesPats] at hpv
  | cons ppat rest ih =>
    intro best fname pv hpv
    obtain ⟨p, pat⟩ := ppat
    cases h : pat fname.data with
    | none =>
      rw [matchesPats_cons_none p rest h] at hpv
      rw [isoFileStep_cons_none best p rest h]
      exact ih best fname pv hpv
    | some ver =>
      rw [matchesPats_cons_some p rest h] at hpv
      rw [isoFileStep_cons_some best p rest h]
      rcases List.mem_cons.mp hpv with rfl | hmem
      · exact pvLe_mono (isoStep_pvLe best fname p ver) (isoFileStep_bestLe rest _ fname)
      · exact ih _ fname pv hmem

theorem isoFileStep_origin :
    ∀ (pats : List (Nat × (List Char → Option (List Char))))
      (best : IsoBest) (fname : String),
    isoFileStep best fname pats = best ∨
      ∃ pv ∈ matchesPats pats fname,
        isoFileStep best fname pats = some (fname, pv.1, pv.2) := by
  intro pats
  induction pats with
  | nil => intro best fname; exact Or.inl rfl
  | cons ppat rest ih =>
    intro best fname
    obtain ⟨p, pat⟩ := ppat
    cases h : pat fname.data with
    | none =>
      rcases ih best fname with h1 | ⟨pv, hpv, h2⟩
      · exact Or.inl (by rw [isoFileStep_cons_none best p rest h, h1])
      · exact Or.inr ⟨pv, by rw [matchesPats_cons_none p rest h]; exact hpv,
          by rw [isoFileStep_cons_none best p rest h]; exact h2⟩
    | some ver =>
      rcases ih (isoStep best fname p ver) fname with h1 | ⟨pv, hpv, h2⟩
      · rcases isoStep_cases best fname p ver with h3 | h3
        · exact Or.inl (by rw [isoFileStep_cons_some best p rest h, h1, h3])
        · refine Or.inr ⟨(p, ver), ?_, ?_⟩
          · rw [matchesPats_cons_some p rest h]
            exact List.mem_cons_self _ _
          · rw [isoFileStep_cons_some best p rest h, h1, h3]
      · refine Or.inr ⟨pv, ?_, ?_⟩
        · rw [matchesPats_cons_some p rest h]
          exact List.mem_cons_of_mem _ hpv
        · rw [isoFileStep_cons_some best p rest h]
          exact h2

theorem foldIso_cons (b : IsoBest) (m : String) (rest : List String) :
    foldIso b (m :: rest) = foldIso (isoFileStep b m tools_patterns) rest := rfl

theorem foldIso_props :
    ∀ (isos : List String) (b : IsoBest),
    bestLe b (foldIso b isos) ∧
    (∀ m ∈ isos, ∀ qw ∈ isoMatches m, pvLe qw (foldIso b isos)) ∧
    (foldIso b isos = b ∨
      ∃ n ∈ isos, ∃ pv ∈ isoMatches n, foldIso b isos = some (n, pv.1, pv.2)) := by
  intro isos
  induction isos with
  | nil =>
    intro b
    exact ⟨bestLe_refl b, by simp, Or.inl rfl⟩
  | cons m rest ih =>
    intro b
    obtain ⟨iha, ihb, ihc⟩ := ih (isoFileStep b m tools_patterns)
    refine ⟨?_, ?_, ?_⟩
    · exact bestLe_trans (isoFileStep_bestLe tools_patterns b m) iha
    · intro m1 hm1 qw hqw
      rcases List.mem_cons.mp hm1 with rfl | hm1
      · exact pvLe_mono (isoFileStep_matches tools_patterns b m1 qw hqw) iha
      · exact ihb m1 hm1 qw hqw
    · rcases ihc with h1 | ⟨n, hn, pv, hpv, h2⟩
      · rcases isoFileStep_origin tools_patterns b m with h3 | ⟨pv, hpv, h3⟩
        · exact Or.inl (by rw [foldIso_cons, h1, h3])
        · exact Or.inr ⟨m, List.mem_cons_self m rest, pv, hpv,
            by rw [foldIso_cons, h1, h3]⟩
      · exact Or.inr ⟨n, List.mem_cons_of_mem m hn, pv, hpv, h2⟩

/-- C8: `VDSMHost._filter_iso_names` returns `None` exactly when no
candidate matches any of the eight `TOOLS_PATTERNS`; and when it returns
a name, that name is one of the candidates, matches a pattern with some
(priority, captured version) pair, and that pair is lexicographically
maximal — priority first, then byte-wise version — over all pattern
matches of all candidates. -/
theorem C8_iso_ranking (isos : List String) :
    (filter_iso_names isos = none ↔ ∀ m ∈ isos, isoMatches m = []) ∧
    (∀ n, filter_iso_names isos = some n →
      n ∈ isos ∧ ∃ pv ∈ isoMatches n,
        ∀ m ∈ isos, ∀ qw ∈ isoMatches m, pairLe qw pv) := by
  obtain ⟨ha, hb, hc⟩ := foldIso_props isos none
  constructor
  · constructor
    · intro hnone m hm
      have hr : foldIso none isos = none := by
        cases hfold : foldIso none isos with
        | none => rfl
        | some x =>
          unfold filter_iso_names at hnone
          rw [hfold] at hnone
          cases hnone
      cases hmm : isoMatches m with
      | nil => rfl
      | cons qw qws =>
        have hle := hb m hm qw (by rw [hmm]; exact List.mem_cons_self qw qws)
        rw [hr] at hle
        exact absurd hle (by simp [pvLe])
    · intro hall
      rcases hc with h1 | ⟨n, hn, pv, hpv, h2⟩
      · unfold filter_iso_names
        rw [h1]
        rfl
      · rw [hall n hn] at hpv
        exact absurd hpv (List.not_mem_nil pv)
  · intro n hsome
    unfold filter_iso_names at hsome
    cases hfold : foldIso none isos with
    | none => rw [hfold] at hsome; cases hsome
    | some x =>
      rw [hfold] at hsome
      have hx1 : x.1 = n := Option.some.inj hsome
      rcases hc with h1 | ⟨n0, hn0, pv, hpv, h2⟩
      · rw [h1] at hfold; cases hfold
      · rw [h2] at hfold
        have hx : x = (n0, pv.1, pv.2) := (Option.some.inj hfold).symm
        have hn0n : n0 = n := by rw [← hx1, hx]
        subst hn0n
        refine ⟨hn0, pv, hpv, ?_⟩
        intro m hm qw hqw
        have hle := hb m hm qw hqw
        rw [h2] at hle
        exact hle

/-- Witness for C8: of the two RHEV tools ISOs the one with the higher
version wins, and the winning pair dominates all matches. -/
theorem C8_iso_ranking_witness :
    "RHEV-toolsSetup_4.1_3.iso"
        ∈ ["RHEV-toolsSetup_4.0_3.iso", "RHEV-toolsSetup_4.1_3.iso"] ∧
      ∃ pv ∈ isoMatches "RHEV-toolsSetup_4.1_3.iso",
        ∀ m ∈ ["RHEV-toolsSetup_4.0_3.iso", "RHEV-toolsSetup_4.1_3.iso"],
          ∀ qw ∈ isoMatches m, pairLe qw pv :=
  (C8_iso_ranking ["RHEV-toolsSetup_4.0_3.iso", "RHEV-toolsSetup_4.1_3.iso"]).2
    "RHEV-toolsSetup_4.1_3.iso" (by decide)

end V2V
